import Mathlib

/-!
Verification of the Graph Analytics & Enrichment Engine of this repository.

The TypeScript sources are shallowly embedded in Lean:
* JS numbers are modelled by the rationals; a JS value that may be
  `undefined` or `NaN` is modelled by an `Option` whose `none` case stands
  for both (all arithmetic used by the code propagates them identically).
* a JS `Record<string, T>` keyed by node ids is modelled by a function
  `String -> Option T` which is `none` outside the key set.
* `Math.random()` is modelled by an explicit `noise` parameter.
* namespaces `GraphService` and `Part005` hold the two different
  implementations of `calculateTriadicBalance` found in
  `src/services/graphService.ts` and `src/unnamed/part_005`; functions whose
  text is identical in both files are defined once at top level.
-/

/-- Edge sign, the TS union `'positive' | 'negative'`. -/
inductive Sign where
  | positive : Sign
  | negative : Sign
deriving DecidableEq, Repr

/-- Edge certainty, the TS union `'confirmed' | 'disputed' | 'alleged'`. -/
inductive Certainty where
  | confirmed : Certainty
  | disputed : Certainty
  | alleged : Certainty
deriving DecidableEq, Repr

/-- Node payload (the `data` block of a node), from the `NodeData` interface
in the types file. Optional TS fields are `Option`s. -/
structure NodeData where
  id : String
  label : String
  type : String
  year : Option Int
  description : Option String
  importance : Option ℚ
  region : Option String
  degreeCentrality : Option ℚ
  pagerank : Option ℚ
  community : Option Nat
  kCore : Option Int
  betweenness : Option ℚ
  closeness : Option ℚ
  eigenvector : Option ℚ
  clustering : Option ℚ
deriving DecidableEq, Repr

/-- Edge payload (the `data` block of an edge). -/
structure EdgeData where
  id : String
  source : String
  target : String
  label : String
  sign : Option Sign
  certainty : Option Certainty
deriving DecidableEq, Repr

/-- A knowledge graph: node list, edge list and the `meta` block
(`modularity`, `globalBalance`), flattened into one structure. -/
structure KnowledgeGraph where
  nodes : List NodeData
  edges : List EdgeData
  modularity : Option ℚ
  globalBalance : Option ℚ
deriving DecidableEq, Repr

/-- A duplicate-merge candidate.  The display-only `reason` string of the TS
interface is omitted from the embedding. -/
structure DuplicateCandidate where
  nodeA : NodeData
  nodeB : NodeData
  similarity : ℚ
deriving DecidableEq, Repr

/-- Helper to build a bare test node: only id, label and type are set. -/
def mkNode (i l t : String) : NodeData :=
  ⟨i, l, t, none, none, none, none, none, none, none, none, none, none, none, none⟩

/-- Helper to build a bare test edge with no sign and no certainty. -/
def mkEdge (i s t l : String) : EdgeData :=
  ⟨i, s, t, l, none, none⟩

/-- Addition of JS numbers where `none` models `undefined`/`NaN`. -/
def jsAdd : Option ℚ → Option ℚ → Option ℚ
  | some a, some b => some (a + b)
  | _, _ => none

/-- Scaling of a JS number by a constant; `none` (NaN) propagates. -/
def jsMul (c : ℚ) : Option ℚ → Option ℚ
  | some a => some (c * a)
  | none => none

/-- Division of a JS number by a natural number; `none` (NaN/undefined)
propagates, matching `undefined / n = NaN` and `NaN / n = NaN`. -/
def jsDivNat : Option ℚ → Nat → Option ℚ
  | some a, n => some (a / n)
  | none, _ => none

/-- True iff `x` is the id of some node of `g`. -/
def isNodeId (g : KnowledgeGraph) (x : String) : Bool :=
  g.nodes.any (fun n => n.id == x)

/-- All index pairs `(i, j)` with `i < j < n`, in the order of the
nested `for` loops of the source. -/
def pairList (n : Nat) : List (Nat × Nat) :=
  (List.range n).flatMap (fun i =>
    (List.range' (i + 1) (n - i - 1)).map (fun j => (i, j)))

/-- All index triples `(i, j, k)` with `i < j < k < n`, in the order of the
triply nested `for` loops of the source. -/
def tripleList (n : Nat) : List (Nat × Nat × Nat) :=
  (List.range n).flatMap (fun i =>
    (List.range' (i + 1) (n - i - 1)).flatMap (fun j =>
      (List.range' (j + 1) (n - j - 1)).map (fun k => (i, j, k))))

/-- Default string used where the embedding needs a list-lookup fallback. -/
def strDefault : String := ""

/-- Substring test on character lists, modelling JS `String.includes`:
true iff `pat` occurs contiguously inside `l`. -/
def hasInfixChars : List Char → List Char → Bool
  | _, [] => true
  | [], _ :: _ => false
  | c :: rest, pat => pat.isPrefixOf (c :: rest) || hasInfixChars rest pat

/-- JS `text.includes(kw)` on strings. -/
def jsIncludes (text kw : String) : Bool :=
  hasInfixChars text.data kw.data

/-- JS `toLowerCase`, modelled as a character-wise lower-casing of the
string's character list. -/
def jsToLower (s : String) : String :=
  ⟨s.data.map Char.toLower⟩

/-- The fixed multilingual keyword list of `processEdgeMetrics`
(identical in src/services/graphService.ts and src/unnamed/part_005). -/
def negativeKeywords : List String :=
  ["conflict", "rival", "anti", "against", "enemy", "opponent", "fight",
   "konflikt", "rywal", "przeciw", "wro"]

/-- Heuristic sign of an edge label: `negative` iff the lower-cased label
contains one of the negative keywords (the `isNegative` test of
`processEdgeMetrics`). -/
def heuristicSign (label : String) : Sign :=
  if negativeKeywords.any (fun kw => jsIncludes (jsToLower label) kw) then
    Sign.negative
  else
    Sign.positive

/-- Edge metric processing of `processEdgeMetrics` (identical text in
src/services/graphService.ts lines 186-203 and src/unnamed/part_005
lines 99-116): keep an existing sign/certainty, otherwise fill in the
heuristic sign and certainty `confirmed`. -/
def processEdgeMetrics (edges : List EdgeData) : List EdgeData :=
  edges.map (fun edge =>
    { edge with
      sign := some (match edge.sign with
        | some s => s
        | none => heuristicSign edge.label)
      certainty := some (match edge.certainty with
        | some c => c
        | none => Certainty.confirmed) })

/-- Dot product accumulated by the loop of `cosineSimilarity`
(src/services/embeddingService.ts lines 40-44). -/
def dotSum (v1 v2 : List ℚ) : ℚ :=
  (List.zipWith (· * ·) v1 v2).sum

/-- Cosine similarity of src/services/embeddingService.ts lines 33-48:
returns 0 on length mismatch or empty input, 0 when either squared norm is
zero, and otherwise the dot product over the product of Euclidean norms.
Real-valued because of the square roots. -/
noncomputable def cosineSimilarity (vecA vecB : List ℚ) : ℝ :=
  if vecA.length ≠ vecB.length ∨ vecA.length = 0 then 0
  else
    let dotProduct := dotSum vecA vecB
    let normA := dotSum vecA vecA
    let normB := dotSum vecB vecB
    if normA = 0 ∨ normB = 0 then 0
    else (dotProduct : ℝ) / (Real.sqrt (normA : ℝ) * Real.sqrt (normB : ℝ))

/-- One cell of the Levenshtein dynamic-programming matrix of
`getLevenshteinDistance` (identical text in src/services/graphService.ts
lines 329-340 and src/unnamed/part_005 lines 257-268): `levCell a b i j`
is `matrix[i][j]`, the distance between the first `j` characters of `a`
and the first `i` characters of `b`. -/
def levCell (a b : List Char) : Nat → Nat → Nat
  | 0, j => j
  | i + 1, 0 => i + 1
  | i + 1, j + 1 =>
    if b.getD i (Char.ofNat 32) == a.getD j (Char.ofNat 32) then
      levCell a b i j
    else
      Nat.min (levCell a b i j + 1)
        (Nat.min (levCell a b (i + 1) j + 1) (levCell a b i (j + 1) + 1))

/-- Levenshtein distance between two strings, the value
`matrix[b.length][a.length]` of the DP matrix. -/
def getLevenshteinDistance (a b : String) : Nat :=
  levCell a.data b.data b.data.length a.data.length

/-- Number of incident-edge endpoints naming `x` (the per-key increment
loop of `calculateDegreeCentrality`, src/unnamed/part_005 lines 15-18):
each edge whose `source` is `x` and each edge whose `target` is `x` adds
one, so a self-loop counts twice. -/
def degreeCount (edges : List EdgeData) (x : String) : Nat :=
  (edges.filter (fun e => e.source == x)).length +
    (edges.filter (fun e => e.target == x)).length

/-- The normalisation constant `Math.max(...Object.values(centrality), 1)`
of `calculateDegreeCentrality`. -/
def maxDegree (g : KnowledgeGraph) : Nat :=
  g.nodes.foldl (fun m n => Nat.max m (degreeCount g.edges n.id)) 1

/-- Degree centrality of src/unnamed/part_005 lines 8-27: the raw incident
count of every node divided by the maximum raw count (at least 1).  The
returned record is keyed by node ids. -/
def calculateDegreeCentrality (g : KnowledgeGraph) : String → Option ℚ :=
  fun x =>
    if isNodeId g x then
      some ((degreeCount g.edges x : ℚ) / (maxDegree g : ℚ))
    else
      none

/-- Out-degree of the id `sid`: the number of edges whose `source` is
`sid` (the filter inside `calculatePageRank`). -/
def outDegree (edges : List EdgeData) (sid : String) : Nat :=
  (edges.filter (fun e => e.source == sid)).length

/-- The damping factor 0.85 of `calculatePageRank`. -/
def damping : ℚ := 17 / 20

/-- Inner sum of one PageRank round for target id `v`
(src/unnamed/part_005 lines 80-88): over the incoming edges of `v`, add
`ranks[source] / outDegree(source)` whenever the out-degree is positive.
When `source` is not a key of `ranks` the JS lookup is `undefined` and the
sum becomes `NaN`; the model's `none` propagates identically. -/
def incomingSum (g : KnowledgeGraph) (ranks : String → Option ℚ)
    (v : String) : Option ℚ :=
  (g.edges.filter (fun e => e.target == v)).foldl
    (fun s e =>
      if 0 < outDegree g.edges e.source then
        jsAdd s (jsDivNat (ranks e.source) (outDegree g.edges e.source))
      else s)
    (some 0)

/-- One PageRank power-iteration round: every node id is re-assigned
`(1 - damping) / N + damping * incomingSum`. -/
def prStep (g : KnowledgeGraph) (ranks : String → Option ℚ) :
    String → Option ℚ :=
  fun x =>
    if isNodeId g x then
      jsAdd (some ((1 - damping) / (g.nodes.length : ℚ)))
        (jsMul damping (incomingSum g ranks x))
    else none

/-- The rank record after `k` rounds, starting from the uniform `1 / N`. -/
def prIter (g : KnowledgeGraph) : Nat → (String → Option ℚ)
  | 0 => fun x => if isNodeId g x then some (1 / (g.nodes.length : ℚ)) else none
  | k + 1 => prStep g (prIter g k)

/-- PageRank of src/unnamed/part_005 lines 70-94: 20 rounds with damping
0.85; the empty graph yields the empty record. -/
def calculatePageRank (g : KnowledgeGraph) : String → Option ℚ :=
  if g.nodes.length = 0 then fun _ => none else prIter g 20

/-- Insertion into a JS `Set` of neighbour ids (`Set.add`): append if the
id is not already present. -/
def addNbr (l : List String) (y : String) : List String :=
  if y ∈ l then l else l ++ [y]

/-- One edge's effect on the neighbour set of the key `x` in the adjacency
construction of `calculateClusteringCoefficient`
(src/services/graphService.ts lines 102-108): the edge is used only when
both endpoints are node ids, and then adds `target` to the set of
`source` and `source` to the set of `target`. -/
def nbrStep (nodes : List NodeData) (x : String) (l : List String)
    (e : EdgeData) : List String :=
  if (nodes.any (fun n => n.id == e.source)) &&
      (nodes.any (fun n => n.id == e.target)) then
    let l1 := if e.source == x then addNbr l e.target else l
    if e.target == x then addNbr l1 e.source else l1
  else l

/-- Undirected neighbour set (as an insertion-ordered duplicate-free list)
of the key `x` after folding all edges. -/
def neighborsOf (nodes : List NodeData) (edges : List EdgeData)
    (x : String) : List String :=
  edges.foldl (nbrStep nodes x) []

/-- Number of linked neighbour pairs of the key `x`: the doubly nested
loop of `calculateClusteringCoefficient` over distinct positions of the
neighbour array, testing adjacency of the pair. -/
def linkedNeighborPairs (nodes : List NodeData) (edges : List EdgeData)
    (x : String) : Nat :=
  let arr := neighborsOf nodes edges x
  (pairList arr.length).countP (fun p =>
    (neighborsOf nodes edges (arr.getD p.1 strDefault)).contains
      (arr.getD p.2 strDefault))

/-- Local clustering coefficient of src/services/graphService.ts lines
94-142: 0 for degree below 2, else `2 * links / (k * (k - 1))`; keyed by
node ids. -/
def calculateClusteringCoefficient (nodes : List NodeData)
    (edges : List EdgeData) : String → Option ℚ :=
  fun x =>
    if nodes.any (fun n => n.id == x) then
      let k := (neighborsOf nodes edges x).length
      if k < 2 then some 0
      else some ((2 * (linkedNeighborPairs nodes edges x) : ℚ) /
        ((k : ℚ) * ((k : ℚ) - 1)))
    else none

/-- One BFS dequeue step of `detectCommunities` (identical text in
src/services/graphService.ts lines 152-172 and src/unnamed/part_005 lines
37-56): pop the queue head, collect the other endpoints of its incident
edges, and enqueue/mark/label each one not yet visited.  The `fuel`
argument only bounds the loop; `detectCommunities` passes enough fuel for
the queue to drain (each id is enqueued at most once). -/
def bfsLoop (edges : List EdgeData) :
    Nat → List String → List String → List (String × Nat) → Nat →
    List String × List (String × Nat)
  | 0, _, visited, comms, _ => (visited, comms)
  | _ + 1, [], visited, comms, _ => (visited, comms)
  | fuel + 1, current :: queue, visited, comms, cid =>
    let nbrs :=
      (edges.filter (fun e => e.source == current || e.target == current)).map
        (fun e => if e.source == current then e.target else e.source)
    let st := nbrs.foldl
      (fun (st : List String × List String × List (String × Nat)) nb =>
        if nb ∈ st.2.1 then st
        else (st.1 ++ [nb], nb :: st.2.1, (nb, cid) :: st.2.2))
      (queue, visited, comms)
    bfsLoop edges fuel st.1 st.2.1 st.2.2 cid

/-- Community detection (BFS connected-component labelling) of
src/services/graphService.ts lines 147-181 (identical in
src/unnamed/part_005 lines 32-65): unvisited nodes start a fresh integer
community id and their whole undirected reachable set receives it.  The
result record maps an id to its community. -/
def detectCommunities (g : KnowledgeGraph) : String → Option Nat :=
  let fuel := g.nodes.length + 2 * g.edges.length + 1
  let final := g.nodes.foldl
    (fun (st : List String × List (String × Nat) × Nat) node =>
      if node.id ∈ st.1 then st
      else
        let bfs := bfsLoop g.edges fuel [node.id] (node.id :: st.1)
          ((node.id, st.2.2) :: st.2.1) st.2.2
        (bfs.1, bfs.2, st.2.2 + 1))
    ([], [], 0)
  fun x => (final.2.1.find? (fun p => p.1 == x)).map (fun p => p.2)

/-- Pointwise update of the signed adjacency record:
`adj[u][v] = val`. -/
def adjUpd (f : String → String → Option Int) (u v : String) (val : Int) :
    String → String → Option Int :=
  fun x y => if x == u && y == v then some val else f x y

/-- Signed adjacency of `calculateTriadicBalance` (identical construction
in both files): every edge writes `±1` under both orientations, later
edges overwriting earlier ones; an absent pair reads as `none`
(JS `undefined`). -/
def signAdj (edges : List EdgeData) : String → String → Option Int :=
  edges.foldl
    (fun f e =>
      let val : Int := if e.sign == some Sign.negative then -1 else 1
      adjUpd (adjUpd f e.source e.target val) e.target e.source val)
    (fun _ _ => none)

/-- JS truthiness of the numeric adjacency entry used by the guard
`if (uv && vw && wu)`: false for `undefined` and for `0`. -/
def jsTruthyInt : Option Int → Bool
  | some z => z != 0
  | none => false

/-- The triangle guard of `calculateTriadicBalance` at an index triple:
all three pairwise adjacency entries are truthy. -/
def triangleAt (edges : List EdgeData) (nodeIds : List String)
    (t : Nat × Nat × Nat) : Bool :=
  let u := nodeIds.getD t.1 strDefault
  let v := nodeIds.getD t.2.1 strDefault
  let w := nodeIds.getD t.2.2 strDefault
  jsTruthyInt (signAdj edges u v) && jsTruthyInt (signAdj edges v w) &&
    jsTruthyInt (signAdj edges w u)

/-- The balanced-triangle test at an index triple: the triangle guard
holds and the product of the three entries is positive. -/
def balancedAt (edges : List EdgeData) (nodeIds : List String)
    (t : Nat × Nat × Nat) : Bool :=
  let u := nodeIds.getD t.1 strDefault
  let v := nodeIds.getD t.2.1 strDefault
  let w := nodeIds.getD t.2.2 strDefault
  triangleAt edges nodeIds t &&
    decide (0 < (signAdj edges u v).getD 0 * (signAdj edges v w).getD 0 *
      (signAdj edges w u).getD 0)

namespace GraphService

/-- Triadic balance of src/services/graphService.ts lines 208-255: the
triple loop runs only over the first `min n 200` node indices (the
`limit` of line 230); `globalBalance` is the balanced ratio, or 1 when no
triangle was counted. -/
def calculateTriadicBalance (g : KnowledgeGraph) : ℚ :=
  let nodeIds := g.nodes.map NodeData.id
  let limit := Nat.min nodeIds.length 200
  let totalTriangles := (tripleList limit).countP (triangleAt g.edges nodeIds)
  let balancedTriangles :=
    (tripleList limit).countP (balancedAt g.edges nodeIds)
  if 0 < totalTriangles then
    (balancedTriangles : ℚ) / (totalTriangles : ℚ)
  else 1

end GraphService

namespace Part005

/-- Triadic balance of src/unnamed/part_005 lines 126-174: identical to
the graphService version except that the triple loop runs over all node
indices (no 200-node cap). -/
def calculateTriadicBalance (g : KnowledgeGraph) : ℚ :=
  let nodeIds := g.nodes.map NodeData.id
  let totalTriangles :=
    (tripleList nodeIds.length).countP (triangleAt g.edges nodeIds)
  let balancedTriangles :=
    (tripleList nodeIds.length).countP (balancedAt g.edges nodeIds)
  if 0 < totalTriangles then
    (balancedTriangles : ℚ) / (totalTriangles : ℚ)
  else 1

/-- Enrichment pipeline of src/unnamed/part_005 lines 176-208: degree
centrality, PageRank and communities are recomputed, edges pass through
`processEdgeMetrics`, triadic balance is taken over the processed edges,
and each node receives the derived fields `degreeCentrality`, `pagerank`,
`community` and `kCore`.  `noise` stands for the `Math.random()` used in
the placeholder modularity. -/
def enrichGraphWithMetrics (noise : ℚ) (g : KnowledgeGraph) :
    KnowledgeGraph :=
  let dc := calculateDegreeCentrality g
  let pr := calculatePageRank g
  let comm := detectCommunities g
  let processedEdges := processEdgeMetrics g.edges
  let tempGraph : KnowledgeGraph :=
    { g with edges := processedEdges }
  let globalBalance := calculateTriadicBalance tempGraph
  let newNodes := g.nodes.map (fun node =>
    { node with
      degreeCentrality := dc node.id
      pagerank := pr node.id
      community := comm node.id
      kCore := some (Int.floor (((dc node.id).getD 0) * 10)) })
  { nodes := newNodes
    edges := processedEdges
    modularity := some (2 / 5 + noise * (1 / 10))
    globalBalance := some globalBalance }

end Part005

namespace GraphService

/-- Similarity score of one iteration of the pair loop of
`detectDuplicates` (src/services/graphService.ts lines 312-314):
`1 - dist / maxLen` over the lower-cased labels, or 0 when both labels
are empty (`maxLen > 0` guard). -/
def lexSimilarity (n1 n2 : NodeData) : ℚ :=
  if 0 < Nat.max n1.label.data.length n2.label.data.length then
    1 - (getLevenshteinDistance (jsToLower n1.label) (jsToLower n2.label) : ℚ) /
      (Nat.max n1.label.data.length n2.label.data.length : ℚ)
  else 0

/-- Candidate produced by one iteration of the nested pair loop of
`detectDuplicates` (src/services/graphService.ts lines 305-325): `none`
when the types differ or the similarity is below the threshold. -/
def dupCandidateAt (nodes : List NodeData) (threshold : ℚ)
    (p : Nat × Nat) : Option DuplicateCandidate :=
  let n1 := nodes.getD p.1 (mkNode strDefault strDefault strDefault)
  let n2 := nodes.getD p.2 (mkNode strDefault strDefault strDefault)
  if n1.type == n2.type then
    if threshold ≤ lexSimilarity n1 n2 then
      some ⟨n1, n2, lexSimilarity n1 n2⟩
    else none
  else none

/-- Lexical duplicate detection of src/services/graphService.ts lines
301-327: all index pairs `i < j`, same-type filter, Levenshtein-based
similarity against the caller threshold, result sorted by descending
similarity (JS `Array.sort` is stable; modelled by a stable merge
sort). -/
def detectDuplicates (g : KnowledgeGraph) (threshold : ℚ) :
    List DuplicateCandidate :=
  ((pairList g.nodes.length).filterMap
    (dupCandidateAt g.nodes threshold)).mergeSort
    (fun a b => decide (b.similarity ≤ a.similarity))

end GraphService

namespace Store

/-- Node merge of the zustand store (src/unnamed/part_002 lines 159-172):
redirect every edge endpoint equal to `dropId` to `keepId`, drop the node
`dropId`, drop the self-loop edges this creates, then re-enrich.  The
store imports the enrichment entry point; the embedding composes with the
in-repository implementation `Part005.enrichGraphWithMetrics` (the
graphService variant maps nodes and edges the same way, delegating only
the numeric scores to the cytoscape library). -/
def mergeNodes (noise : ℚ) (g : KnowledgeGraph) (keepId dropId : String) :
    KnowledgeGraph :=
  let updatedEdges := g.edges.map (fun e =>
    { e with
      source := if e.source == dropId then keepId else e.source
      target := if e.target == dropId then keepId else e.target })
  let updatedNodes := g.nodes.filter (fun n => n.id != dropId)
  let finalEdges := updatedEdges.filter (fun e => e.source != e.target)
  Part005.enrichGraphWithMetrics noise
    { nodes := updatedNodes, edges := finalEdges,
      modularity := none, globalBalance := none }

end Store

/-- True iff the edge `e` joins the unordered pair `u, v` (in either
orientation), the condition under which `calculateTriadicBalance` writes
the adjacency entries `adj[u][v]` and `adj[v][u]`. -/
def connectsPair (e : EdgeData) (u v : String) : Bool :=
  (e.source == u && e.target == v) || (e.source == v && e.target == u)

/-- Numeric sign value the triadic-balance code assigns to an edge. -/
def signVal (e : EdgeData) : Int :=
  if e.sign == some Sign.negative then -1 else 1

/-- Specification-side pairwise sign, written from the spec's words: the
`+1`/`-1` sign of the edge joining `u` and `v`, `none` when no such edge
exists.  When several edges join the pair the last one wins, matching the
overwriting adjacency assignment. -/
def specPairSign (edges : List EdgeData) (u v : String) : Option Int :=
  ((edges.filter (fun e => connectsPair e u v)).getLast?).map signVal

/-- Specification-side triangle test at an index triple of the node list:
all three pairwise edges exist. -/
def specTriangleAt (edges : List EdgeData) (nodeIds : List String)
    (t : Nat × Nat × Nat) : Bool :=
  let u := nodeIds.getD t.1 strDefault
  let v := nodeIds.getD t.2.1 strDefault
  let w := nodeIds.getD t.2.2 strDefault
  (specPairSign edges u v).isSome && (specPairSign edges v w).isSome &&
    (specPairSign edges w u).isSome

/-- Specification-side balance test at an index triple: the three pairwise
edges exist and the product of their signs is positive. -/
def specBalancedAt (edges : List EdgeData) (nodeIds : List String)
    (t : Nat × Nat × Nat) : Bool :=
  let u := nodeIds.getD t.1 strDefault
  let v := nodeIds.getD t.2.1 strDefault
  let w := nodeIds.getD t.2.2 strDefault
  specTriangleAt edges nodeIds t &&
    decide (0 < (specPairSign edges u v).getD 0 *
      (specPairSign edges v w).getD 0 * (specPairSign edges w u).getD 0)

/-- Specification-side global balance, written from the spec's words: the
ratio of balanced triangles over all triangles among ALL unordered node
triples (no cap), defaulting to 1 when no triangle exists.  To be compared
with the source-side `GraphService.calculateTriadicBalance`. -/
def specTriadicBalance (g : KnowledgeGraph) : ℚ :=
  let nodeIds := g.nodes.map NodeData.id
  let total := (tripleList nodeIds.length).countP (specTriangleAt g.edges nodeIds)
  let balanced :=
    (tripleList nodeIds.length).countP (specBalancedAt g.edges nodeIds)
  if 0 < total then (balanced : ℚ) / (total : ℚ) else 1

/-- The membership test of the clustering-coefficient adjacency: both edge
endpoints are ids of nodes. -/
def edgeEndpointsPresent (nodes : List NodeData) (e : EdgeData) : Bool :=
  (nodes.any (fun n => n.id == e.source)) &&
    (nodes.any (fun n => n.id == e.target))

/-- A graph with exactly one node and no edges. -/
def oneNodeGraph : KnowledgeGraph :=
  ⟨[mkNode "n1" "Dmowski" "person"], [], none, none⟩

/-- A graph whose single edge has a source id (`ghost`) that is not the id
of any node, pointing at the real node `a`. -/
def ghostEdgeGraph : KnowledgeGraph :=
  ⟨[mkNode "a" "A" "person"], [mkEdge "e1" "ghost" "a" "knows"], none, none⟩

/-- Three nodes forming one triangle, all edges signed `positive`. -/
def triPosGraph : KnowledgeGraph :=
  ⟨[mkNode "a" "A" "p", mkNode "b" "B" "p", mkNode "c" "C" "p"],
   [⟨"e1", "a", "b", "ally", some Sign.positive, none⟩,
    ⟨"e2", "b", "c", "ally", some Sign.positive, none⟩,
    ⟨"e3", "c", "a", "ally", some Sign.positive, none⟩], none, none⟩

/-- Three nodes forming one triangle with exactly one `negative` edge. -/
def triNegGraph : KnowledgeGraph :=
  ⟨[mkNode "a" "A" "p", mkNode "b" "B" "p", mkNode "c" "C" "p"],
   [⟨"e1", "a", "b", "ally", some Sign.positive, none⟩,
    ⟨"e2", "b", "c", "ally", some Sign.positive, none⟩,
    ⟨"e3", "c", "a", "rival", some Sign.negative, none⟩], none, none⟩

/-- Filler node id used by `bigCapGraph`: `i + 1` repetitions of the
character `f`, so distinct indices give distinct ids, all different from
the ids `a`, `b`, `c`. -/
def fillerId (i : Nat) : String :=
  ⟨List.replicate (i + 1) (Char.ofNat 102)⟩

/-- A 201-node graph: 198 isolated filler nodes followed by a triangle
`a`, `b`, `c` whose edge `c`-`a` is negative.  The triangle occupies the
node indices 198, 199 and 200, beyond the reach of the capped triple loop
of `GraphService.calculateTriadicBalance` (its `limit` is 200, so the
index 200 is never used). -/
def bigCapGraph : KnowledgeGraph :=
  ⟨((List.range 198).map (fun i => mkNode (fillerId i) "F" "p")) ++
    [mkNode "a" "A" "p", mkNode "b" "B" "p", mkNode "c" "C" "p"],
   [⟨"e1", "a", "b", "ally", some Sign.positive, none⟩,
    ⟨"e2", "b", "c", "ally", some Sign.positive, none⟩,
    ⟨"e3", "c", "a", "rival", some Sign.negative, none⟩], none, none⟩

/-- Two distinct nodes of the same type whose labels are both the empty
string. -/
def emptyLabelGraph : KnowledgeGraph :=
  ⟨[mkNode "n1" "" "Person", mkNode "n2" "" "Person"], [], none, none⟩

/-- A two-node graph with one edge from `a` to `b` carrying an explicit
`positive` sign and no certainty. -/
def pairGraph : KnowledgeGraph :=
  ⟨[mkNode "a" "A" "p", mkNode "b" "B" "p"],
   [⟨"e1", "a", "b", "rival of", some Sign.positive, none⟩], none, none⟩

/-- Two distinct nodes of the same type sharing the non-empty label
`Dmowski`. -/
def dupPairGraph : KnowledgeGraph :=
  ⟨[mkNode "n1" "Dmowski" "Person", mkNode "n2" "Dmowski" "Person"], [],
   none, none⟩

/-- Invariant of the PageRank power iteration used in the range proofs:
every node id holds a nonnegative rank, and the ranks of the node list
sum to at most 1. -/
def PrInv (g : KnowledgeGraph) (r : String → Option ℚ) : Prop :=
  (∀ x, isNodeId g x = true → ∃ q, r x = some q ∧ 0 ≤ q) ∧
  (g.nodes.map (fun n => (r n.id).getD 0)).sum ≤ 1

/-- The per-edge PageRank mass flowing along an edge under the rank
record `r`: the rank of its source divided by the source's out-degree. -/
def edgeMass (g : KnowledgeGraph) (r : String → Option ℚ)
    (e : EdgeData) : ℚ :=
  (r e.source).getD 0 / (outDegree g.edges e.source : ℚ)

attribute [local semireducible] Rat.add Rat.mul Rat.inv Rat.sub Rat.ofScientific

theorem mem_pairList {n i j : Nat} :
    (i, j) ∈ pairList n ↔ i < j ∧ j < n := by
  simp only [pairList, List.mem_flatMap, List.mem_map, List.mem_range,
    List.mem_range', Prod.mk.injEq]
  constructor
  · rintro ⟨a, ha, b, ⟨c, hc, rfl⟩, rfl, rfl⟩
    omega
  · rintro ⟨h1, h2⟩
    exact ⟨i, by omega, j, ⟨j - i - 1, by omega, by omega⟩, rfl, rfl⟩

theorem mem_tripleList {n i j k : Nat} :
    (i, j, k) ∈ tripleList n ↔ i < j ∧ j < k ∧ k < n := by
  simp only [tripleList, List.mem_flatMap, List.mem_map, List.mem_range,
    List.mem_range', Prod.mk.injEq]
  constructor
  · rintro ⟨a, ha, b, ⟨c, hc, rfl⟩, d, ⟨e, he, rfl⟩, rfl, rfl, rfl⟩
    omega
  · rintro ⟨h1, h2, h3⟩
    refine ⟨i, by omega, j, ⟨j - i - 1, by omega, by omega⟩,
      k, ⟨k - j - 1, by omega, by omega⟩, rfl, rfl, rfl⟩

/-- C1 counterexample: for the concrete one-node graph, enrichment gives
the node PageRank 3/20 = 0.15, not the 1.0 the claim states. -/
theorem C1_counterexample :
    (Part005.enrichGraphWithMetrics 0 oneNodeGraph).nodes.map NodeData.pagerank
      = [some (3 / 20)] ∧ ((3 : ℚ) / 20) ≠ 1 := by
  constructor
  · decide
  · norm_num

/-- C1 (amended): for every graph with exactly one node and no edges, the
node's clustering coefficient is 0, its degree centrality is 0, and its
PageRank is (1 - damping) / 1 = 0.15 (not 1.0). -/
theorem C1_one_node_metrics (n : NodeData) (m gb : Option ℚ) :
    calculateClusteringCoefficient [n] [] n.id = some 0 ∧
    calculateDegreeCentrality ⟨[n], [], m, gb⟩ n.id = some 0 ∧
    calculatePageRank ⟨[n], [], m, gb⟩ n.id = some (3 / 20) := by
  refine ⟨?_, ?_, ?_⟩
  · simp [calculateClusteringCoefficient, neighborsOf]
  · have h0 : ((0 : ℚ) / (1 : ℚ)) = 0 := by norm_num
    simp [calculateDegreeCentrality, isNodeId, degreeCount, maxDegree]
  · show prStep ⟨[n], [], m, gb⟩ (prIter ⟨[n], [], m, gb⟩ 19) n.id = some (3 / 20)
    simp only [prStep, isNodeId, incomingSum, jsAdd, jsMul, List.any_cons,
      List.any_nil, beq_self_eq_true, Bool.true_or, if_true]
    norm_num [damping]

/-- C8: enrichment of the empty graph returns no nodes, no edges, and a
global balance of 1, and both centrality records are empty. -/
theorem C8_empty_graph (noise : ℚ) (m gb : Option ℚ) :
    (Part005.enrichGraphWithMetrics noise ⟨[], [], m, gb⟩).nodes = [] ∧
    (Part005.enrichGraphWithMetrics noise ⟨[], [], m, gb⟩).edges = [] ∧
    (Part005.enrichGraphWithMetrics noise ⟨[], [], m, gb⟩).globalBalance
      = some 1 ∧
    (∀ x, calculateDegreeCentrality ⟨[], [], m, gb⟩ x = none) ∧
    (∀ x, calculatePageRank ⟨[], [], m, gb⟩ x = none) :=
  ⟨rfl, rfl, rfl, fun _ => rfl, fun _ => rfl⟩

/-- C2 counterexample: in `ghostEdgeGraph` the edge source `ghost` is not
a node id; far from being skipped, that edge drives the PageRank of the
real node `a` to NaN (modelled as `none`). -/
theorem C2_counterexample :
    isNodeId ghostEdgeGraph "a" = true ∧
    calculatePageRank ghostEdgeGraph "a" = none := by
  decide

/-- C9 counterexample: two distinct same-type nodes with identical EMPTY
labels produce no duplicate candidate at threshold 0.7 (the `maxLen > 0`
guard yields similarity 0), contradicting the claimed similarity-1.0
candidate. -/
theorem C9_counterexample :
    emptyLabelGraph.nodes.map NodeData.type = ["Person", "Person"] ∧
    emptyLabelGraph.nodes.map NodeData.label = ["", ""] ∧
    GraphService.detectDuplicates emptyLabelGraph (7 / 10) = [] := by
  refine ⟨by decide, by decide, ?_⟩
  unfold GraphService.detectDuplicates
  have h : (pairList emptyLabelGraph.nodes.length).filterMap
      (GraphService.dupCandidateAt emptyLabelGraph.nodes (7 / 10)) = [] := by
    decide
  rw [h, List.mergeSort_nil]

/-- C5: enrichment maps edges positionally; an existing sign or certainty
is preserved, a missing one receives the heuristic sign, respectively the
default certainty `confirmed`. -/
theorem C5_sticky_edge_metrics (noise : ℚ) (g : KnowledgeGraph) (i : Nat)
    (e : EdgeData) (h : g.edges[i]? = some e) :
    ∃ e', (Part005.enrichGraphWithMetrics noise g).edges[i]? = some e' ∧
      e'.source = e.source ∧ e'.target = e.target ∧
      (∀ s, e.sign = some s → e'.sign = some s) ∧
      (∀ c, e.certainty = some c → e'.certainty = some c) ∧
      (e.sign = none → e'.sign = some (heuristicSign e.label)) ∧
      (e.certainty = none → e'.certainty = some Certainty.confirmed) := by
  refine ⟨{ e with
      sign := some (match e.sign with
        | some s => s
        | none => heuristicSign e.label)
      certainty := some (match e.certainty with
        | some c => c
        | none => Certainty.confirmed) }, ?_, rfl, rfl, ?_, ?_, ?_, ?_⟩
  · show (processEdgeMetrics g.edges)[i]? = _
    unfold processEdgeMetrics
    rw [List.getElem?_map, h]
    rfl
  · intro s hs
    simp [hs]
  · intro c hc
    simp [hc]
  · intro hs
    simp [hs]
  · intro hc
    simp [hc]

/-- Witness for C5 at a concrete graph: the single edge of `pairGraph`
has an explicit sign (preserved) and no certainty (defaulted). -/
theorem C5_witness :
    ∃ e', (Part005.enrichGraphWithMetrics 0 pairGraph).edges[0]? = some e' ∧
      e'.source = "a" ∧ e'.target = "b" ∧
      (∀ s, some Sign.positive = some s → e'.sign = some s) ∧
      (∀ c, (none : Option Certainty) = some c → e'.certainty = some c) ∧
      ((some Sign.positive : Option Sign) = none →
        e'.sign = some (heuristicSign "rival of")) ∧
      ((none : Option Certainty) = none →
        e'.certainty = some Certainty.confirmed) :=
  C5_sticky_edge_metrics 0 pairGraph 0
    ⟨"e1", "a", "b", "rival of", some Sign.positive, none⟩ rfl

/-- C10: enrichment keeps the node list's length and order, node ids, and
all non-derived node fields, and keeps every edge's id, endpoints and
label. -/
theorem C10_frame (noise : ℚ) (g : KnowledgeGraph) :
    ((Part005.enrichGraphWithMetrics noise g).nodes.length
      = g.nodes.length) ∧
    (∀ (i : Nat) (n : NodeData), g.nodes[i]? = some n →
      ∃ n', (Part005.enrichGraphWithMetrics noise g).nodes[i]? = some n' ∧
        n'.id = n.id ∧ n'.label = n.label ∧ n'.type = n.type ∧
        n'.region = n.region ∧ n'.importance = n.importance ∧
        n'.year = n.year ∧ n'.description = n.description) ∧
    (∀ (j : Nat) (e : EdgeData), g.edges[j]? = some e →
      ∃ e', (Part005.enrichGraphWithMetrics noise g).edges[j]? = some e' ∧
        e'.id = e.id ∧ e'.source = e.source ∧ e'.target = e.target ∧
        e'.label = e.label) := by
  refine ⟨?_, ?_, ?_⟩
  · show (g.nodes.map _).length = g.nodes.length
    rw [List.length_map]
  · intro i n h
    refine ⟨{ n with
        degreeCentrality := calculateDegreeCentrality g n.id
        pagerank := calculatePageRank g n.id
        community := detectCommunities g n.id
        kCore := some (Int.floor
          (((calculateDegreeCentrality g n.id).getD 0) * 10)) },
      ?_, rfl, rfl, rfl, rfl, rfl, rfl, rfl⟩
    show (g.nodes.map _)[i]? = _
    rw [List.getElem?_map, h]
    rfl
  · intro j e h
    refine ⟨{ e with
        sign := some (match e.sign with
          | some s => s
          | none => heuristicSign e.label)
        certainty := some (match e.certainty with
          | some c => c
          | none => Certainty.confirmed) }, ?_, rfl, rfl, rfl, rfl⟩
    show (processEdgeMetrics g.edges)[j]? = _
    unfold processEdgeMetrics
    rw [List.getElem?_map, h]
    rfl

/-- Witness for C10 at a concrete graph and position. -/
theorem C10_witness :
    ∃ n', (Part005.enrichGraphWithMetrics 0 pairGraph).nodes[0]? = some n' ∧
      n'.id = "a" ∧ n'.label = "A" ∧ n'.type = "p" ∧
      n'.region = none ∧ n'.importance = none ∧
      n'.year = none ∧ n'.description = none := by
  obtain ⟨-, h2, -⟩ := C10_frame 0 pairGraph
  exact h2 0 (mkNode "a" "A" "p") rfl

/-- C6: after merging `dropId` into `keepId` (with distinct ids), no edge
is a self-loop, no edge endpoint and no node id equals `dropId`, the edge
endpoints are exactly the redirected input endpoints with self-loops
dropped, and the surviving nodes keep all their non-derived fields. -/
theorem C6_merge (noise : ℚ) (g : KnowledgeGraph) (keepId dropId : String)
    (hne : keepId ≠ dropId) :
    (∀ e ∈ (Store.mergeNodes noise g keepId dropId).edges,
        e.source ≠ e.target ∧ e.source ≠ dropId ∧ e.target ≠ dropId) ∧
    (∀ n ∈ (Store.mergeNodes noise g keepId dropId).nodes, n.id ≠ dropId) ∧
    ((Store.mergeNodes noise g keepId dropId).edges.map
        (fun e => (e.source, e.target)) =
      (g.edges.map (fun e =>
          (if e.source == dropId then keepId else e.source,
           if e.target == dropId then keepId else e.target))).filter
        (fun p => p.1 != p.2)) ∧
    ((Store.mergeNodes noise g keepId dropId).nodes.map
        (fun n => (n.id, n.label, n.type, n.region, n.importance, n.year,
          n.description)) =
      (g.nodes.filter (fun n => n.id != dropId)).map
        (fun n => (n.id, n.label, n.type, n.region, n.importance, n.year,
          n.description))) := by
  have hedges : (Store.mergeNodes noise g keepId dropId).edges =
      ((g.edges.map (fun e =>
        { e with
          source := if e.source == dropId then keepId else e.source
          target := if e.target == dropId then keepId else e.target })).filter
        (fun e => e.source != e.target)).map (fun edge =>
          { edge with
            sign := some (match edge.sign with
              | some s => s
              | none => heuristicSign edge.label)
            certainty := some (match edge.certainty with
              | some c => c
              | none => Certainty.confirmed) }) := rfl
  refine ⟨?_, ?_, ?_, ?_⟩
  · intro e he
    rw [hedges] at he
    obtain ⟨e0, he0, rfl⟩ := List.mem_map.mp he
    obtain ⟨he1, hcond⟩ := List.mem_filter.mp he0
    obtain ⟨e1, _, rfl⟩ := List.mem_map.mp he1
    refine ⟨by simpa [bne_iff_ne] using hcond, ?_, ?_⟩
    · show (if e1.source == dropId then keepId else e1.source) ≠ dropId
      by_cases h : e1.source = dropId <;> simp [h, hne]
    · show (if e1.target == dropId then keepId else e1.target) ≠ dropId
      by_cases h : e1.target = dropId <;> simp [h, hne]
  · intro n hn
    obtain ⟨n0, hn0, rfl⟩ := List.mem_map.mp hn
    obtain ⟨-, hcond⟩ := List.mem_filter.mp hn0
    simpa [bne_iff_ne] using hcond
  · rw [hedges]
    simp only [List.map_map, List.filter_map]
    rfl
  · show ((g.nodes.filter (fun n => n.id != dropId)).map _).map _ = _
    simp only [List.map_map]
    rfl

/-- Witness for C6 at a concrete merge: dropping node `b` of `pairGraph`
into `a` turns the single edge into a removed self-loop. -/
theorem C6_witness :
    (∀ e ∈ (Store.mergeNodes 0 pairGraph "a" "b").edges,
        e.source ≠ e.target ∧ e.source ≠ "b" ∧ e.target ≠ "b") ∧
    (∀ n ∈ (Store.mergeNodes 0 pairGraph "a" "b").nodes, n.id ≠ "b") ∧
    ((Store.mergeNodes 0 pairGraph "a" "b").edges.map
        (fun e => (e.source, e.target)) =
      (pairGraph.edges.map (fun e =>
          (if e.source == "b" then "a" else e.source,
           if e.target == "b" then "a" else e.target))).filter
        (fun p => p.1 != p.2)) ∧
    ((Store.mergeNodes 0 pairGraph "a" "b").nodes.map
        (fun n => (n.id, n.label, n.type, n.region, n.importance, n.year,
          n.description)) =
      (pairGraph.nodes.filter (fun n => n.id != "b")).map
        (fun n => (n.id, n.label, n.type, n.region, n.importance, n.year,
          n.description))) :=
  C6_merge 0 pairGraph "a" "b" (by decide)

/-- Folding the neighbour construction over the dangling-edge-free
sublist gives the same neighbour set: `nbrStep` ignores edges with a
missing endpoint. -/
theorem neighborsOf_filter (nodes : List NodeData) (edges : List EdgeData)
    (x : String) :
    neighborsOf nodes (edges.filter (edgeEndpointsPresent nodes)) x =
      neighborsOf nodes edges x := by
  unfold neighborsOf
  suffices h : ∀ (l : List EdgeData) (acc : List String),
      (l.filter (edgeEndpointsPresent nodes)).foldl (nbrStep nodes x) acc =
        l.foldl (nbrStep nodes x) acc by
    exact h edges []
  intro l
  induction l with
  | nil => intro acc; rfl
  | cons e rest ih =>
    intro acc
    by_cases hp : edgeEndpointsPresent nodes e = true
    · rw [List.filter_cons_of_pos hp]
      exact ih (nbrStep nodes x acc e)
    · rw [List.filter_cons_of_neg hp]
      have hstep : nbrStep nodes x acc e = acc := by
        unfold nbrStep
        rw [if_neg]
        simpa [edgeEndpointsPresent] using hp
      rw [List.foldl_cons, hstep]
      exact ih acc

/-- C2 (amended, positive part): the clustering-coefficient computation
skips dangling edges silently: removing every edge with a missing
endpoint does not change its output at any key. -/
theorem C2_clustering_skips_dangling (nodes : List NodeData)
    (edges : List EdgeData) :
    calculateClusteringCoefficient nodes
        (edges.filter (edgeEndpointsPresent nodes)) =
      calculateClusteringCoefficient nodes edges := by
  funext x
  unfold calculateClusteringCoefficient linkedNeighborPairs
  simp only [neighborsOf_filter]

/-- Diagonal of the Levenshtein matrix of a string against itself: the
character comparison always succeeds, so the distance is 0. -/
theorem levCell_diag (l : List Char) : ∀ i : Nat, levCell l l i i = 0 := by
  intro i
  induction i with
  | zero =>
    unfold levCell
    rfl
  | succ i ih =>
    unfold levCell
    rw [if_pos (beq_self_eq_true _), ih]

/-- Levenshtein distance of a string to itself is 0. -/
theorem getLevenshteinDistance_self (s : String) :
    getLevenshteinDistance s s = 0 := by
  unfold getLevenshteinDistance
  exact levCell_diag s.data s.data.length

/-- C9 (amended): at threshold 0.7 every same-type pair with identical
non-empty labels yields a similarity-1 candidate, and no candidate ever
pairs nodes of different types. -/
theorem C9_lexical_duplicates :
    (∀ (g : KnowledgeGraph) (i j : Nat) (n1 n2 : NodeData),
      g.nodes[i]? = some n1 → g.nodes[j]? = some n2 → i < j →
      n1.type = n2.type → n1.label = n2.label → n1.label.data.length ≠ 0 →
      ∃ c ∈ GraphService.detectDuplicates g (7 / 10),
        c.nodeA = n1 ∧ c.nodeB = n2 ∧ c.similarity = 1) ∧
    (∀ (g : KnowledgeGraph) (threshold : ℚ) (c : DuplicateCandidate),
      c ∈ GraphService.detectDuplicates g threshold →
      c.nodeA.type = c.nodeB.type) := by
  constructor
  · intro g i j n1 n2 h1 h2 hij htype hlabel hlen
    refine ⟨⟨n1, n2, 1⟩, ?_, rfl, rfl, rfl⟩
    unfold GraphService.detectDuplicates
    rw [List.mem_mergeSort, List.mem_filterMap]
    refine ⟨(i, j), ?_, ?_⟩
    · rw [mem_pairList]
      have hj : j < g.nodes.length := by
        by_contra hcon
        push_neg at hcon
        rw [List.getElem?_eq_none hcon] at h2
        cases h2
      exact ⟨hij, hj⟩
    · have hd1 : g.nodes.getD i (mkNode strDefault strDefault strDefault)
          = n1 := by
        rw [List.getD_eq_getElem?_getD, h1]
        rfl
      have hd2 : g.nodes.getD j (mkNode strDefault strDefault strDefault)
          = n2 := by
        rw [List.getD_eq_getElem?_getD, h2]
        rfl
      have hsim : GraphService.lexSimilarity n1 n2 = 1 := by
        unfold GraphService.lexSimilarity
        have hdist : getLevenshteinDistance (jsToLower n1.label)
            (jsToLower n2.label) = 0 := by
          rw [hlabel]
          exact getLevenshteinDistance_self _
        have hmax : Nat.max n1.label.data.length n2.label.data.length
            = n1.label.data.length := by
          rw [hlabel]
          exact Nat.max_self _
        rw [hdist, hmax, if_pos (by omega : 0 < n1.label.data.length)]
        simp only [Nat.cast_zero, zero_div, sub_zero]
      unfold GraphService.dupCandidateAt
      simp only [hd1, hd2]
      rw [if_pos (by simp [htype]), hsim,
        if_pos (by norm_num : (7 : ℚ) / 10 ≤ 1)]
  · intro g threshold c hc
    unfold GraphService.detectDuplicates at hc
    rw [List.mem_mergeSort, List.mem_filterMap] at hc
    obtain ⟨p, -, hp⟩ := hc
    unfold GraphService.dupCandidateAt at hp
    dsimp only at hp
    split_ifs at hp with ht hs
    · cases hp
      simpa using ht

/-- Witness for C9's amended universal part at a concrete graph: the two
`Dmowski` nodes of `dupPairGraph` produce a similarity-1 candidate. -/
theorem C9_witness :
    ∃ c ∈ GraphService.detectDuplicates dupPairGraph (7 / 10),
      c.nodeA = mkNode "n1" "Dmowski" "Person" ∧
      c.nodeB = mkNode "n2" "Dmowski" "Person" ∧ c.similarity = 1 :=
  C9_lexical_duplicates.1 dupPairGraph 0 1 (mkNode "n1" "Dmowski" "Person")
    (mkNode "n2" "Dmowski" "Person") rfl rfl (by omega) rfl rfl (by decide)

/-- A vector's dot product with itself (the accumulated `normA`/`normB`)
is nonnegative. -/
theorem dotSum_self_nonneg (v : List ℚ) : 0 ≤ dotSum v v := by
  induction v with
  | nil => simp [dotSum]
  | cons x xs ih =>
    have h : dotSum (x :: xs) (x :: xs) = x * x + dotSum xs xs := by
      simp [dotSum]
    rw [h]
    exact add_nonneg (mul_self_nonneg x) ih

/-- Cauchy-Schwarz for the list dot products of `cosineSimilarity`. -/
theorem dotSum_cauchy : ∀ a b : List ℚ,
    (dotSum a b) ^ 2 ≤ dotSum a a * dotSum b b := by
  intro a
  induction a with
  | nil =>
    intro b
    simp [dotSum]
  | cons x xs ih =>
    intro b
    cases b with
    | nil =>
      simp [dotSum]
    | cons y ys =>
      have hxy : dotSum (x :: xs) (y :: ys) = x * y + dotSum xs ys := by
        simp [dotSum]
      have hxx : dotSum (x :: xs) (x :: xs) = x * x + dotSum xs xs := by
        simp [dotSum]
      have hyy : dotSum (y :: ys) (y :: ys) = y * y + dotSum ys ys := by
        simp [dotSum]
      have hA : 0 ≤ dotSum xs xs := dotSum_self_nonneg xs
      have hB : 0 ≤ dotSum ys ys := dotSum_self_nonneg ys
      have hab := ih ys
      rw [hxy, hxx, hyy]
      rcases eq_or_lt_of_le hB with hB0 | hBpos
      · have hS : dotSum xs ys = 0 := by
          nlinarith [sq_nonneg (dotSum xs ys)]
        rw [hS, ← hB0]
        nlinarith [mul_nonneg hA (mul_self_nonneg y), mul_self_nonneg (x * y)]
      · have hABS : 0 ≤ dotSum xs xs * dotSum ys ys - (dotSum xs ys) ^ 2 := by
          nlinarith
        nlinarith [sq_nonneg (x * dotSum ys ys - y * dotSum xs ys),
          mul_nonneg (sq_nonneg y) hABS, mul_nonneg (le_of_lt hBpos) hABS]

/-- C7 counterexample: `cosineSimilarity [1] [-1] = -1`, which is outside
the claimed interval `[0, 1]`. -/
theorem C7_counterexample :
    cosineSimilarity [1] [-1] = -1 ∧ ((-1 : ℝ) < 0) := by
  refine ⟨?_, by norm_num⟩
  unfold cosineSimilarity
  dsimp only
  rw [if_neg (by norm_num)]
  have hd : dotSum [1] [-1] = -1 := by norm_num [dotSum]
  have hn1 : dotSum [(1 : ℚ)] [1] = 1 := by norm_num [dotSum]
  have hn2 : dotSum [(-1 : ℚ)] [-1] = 1 := by norm_num [dotSum]
  rw [if_neg (by rw [hn1, hn2]; norm_num)]
  rw [hd, hn1, hn2]
  norm_num [Real.sqrt_one]

/-- C7 (amended): `cosineSimilarity` is total, returns 0 in all the
degenerate cases, matches the worked examples, and its value always lies
in `[-1, 1]` (not `[0, 1]`: vectors with negative components give
negative cosines). -/
theorem C7_cosine :
    (∀ v1 v2 : List ℚ, -1 ≤ cosineSimilarity v1 v2 ∧
      cosineSimilarity v1 v2 ≤ 1) ∧
    (∀ v1 v2 : List ℚ,
      v1.length ≠ v2.length ∨ v1.length = 0 ∨
        dotSum v1 v1 = 0 ∨ dotSum v2 v2 = 0 →
      cosineSimilarity v1 v2 = 0) ∧
    (cosineSimilarity [1, 0] [1, 0] = 1 ∧
      cosineSimilarity [1, 0] [0, 1] = 0) := by
  refine ⟨?_, ?_, ?_, ?_⟩
  · intro v1 v2
    unfold cosineSimilarity
    dsimp only
    split_ifs with h1 h2
    · norm_num
    · norm_num
    · push_neg at h1 h2
      have hA0 : 0 ≤ dotSum v1 v1 := dotSum_self_nonneg v1
      have hB0 : 0 ≤ dotSum v2 v2 := dotSum_self_nonneg v2
      have hApos : (0 : ℝ) < ((dotSum v1 v1 : ℚ) : ℝ) := by
        have := lt_of_le_of_ne hA0 (Ne.symm h2.1)
        exact_mod_cast this
      have hBpos : (0 : ℝ) < ((dotSum v2 v2 : ℚ) : ℝ) := by
        have := lt_of_le_of_ne hB0 (Ne.symm h2.2)
        exact_mod_cast this
      have hsq : ((dotSum v1 v2 : ℚ) : ℝ) ^ 2 ≤
          ((dotSum v1 v1 : ℚ) : ℝ) * ((dotSum v2 v2 : ℚ) : ℝ) := by
        have := dotSum_cauchy v1 v2
        exact_mod_cast this
      have habs : |((dotSum v1 v2 : ℚ) : ℝ)| ≤
          Real.sqrt ((dotSum v1 v1 : ℚ) : ℝ) *
            Real.sqrt ((dotSum v2 v2 : ℚ) : ℝ) := by
        rw [← Real.sqrt_mul (le_of_lt hApos)]
        rw [← Real.sqrt_sq_eq_abs]
        exact Real.sqrt_le_sqrt hsq
      have hden : (0 : ℝ) < Real.sqrt ((dotSum v1 v1 : ℚ) : ℝ) *
          Real.sqrt ((dotSum v2 v2 : ℚ) : ℝ) :=
        mul_pos (Real.sqrt_pos.mpr hApos) (Real.sqrt_pos.mpr hBpos)
      constructor
      · rw [neg_le, ← neg_div]
        rw [div_le_one hden]
        calc -((dotSum v1 v2 : ℚ) : ℝ) ≤ |((dotSum v1 v2 : ℚ) : ℝ)| :=
              neg_le_abs _
          _ ≤ _ := habs
      · rw [div_le_one hden]
        calc ((dotSum v1 v2 : ℚ) : ℝ) ≤ |((dotSum v1 v2 : ℚ) : ℝ)| :=
              le_abs_self _
          _ ≤ _ := habs
  · intro v1 v2 h
    unfold cosineSimilarity
    dsimp only
    split_ifs with h1 h2
    · rfl
    · rfl
    · exfalso
      push_neg at h1 h2
      rcases h with h | h | h | h
      · exact h h1.1
      · exact h1.2 h
      · exact h2.1 h
      · exact h2.2 h
  · unfold cosineSimilarity
    dsimp only
    rw [if_neg (by norm_num)]
    have hd : dotSum [(1 : ℚ), 0] [1, 0] = 1 := by norm_num [dotSum]
    rw [if_neg (by rw [hd]; norm_num)]
    rw [hd]
    norm_num [Real.sqrt_one]
  · unfold cosineSimilarity
    dsimp only
    rw [if_neg (by norm_num)]
    have hd : dotSum [(1 : ℚ), 0] [0, 1] = 0 := by norm_num [dotSum]
    have hn1 : dotSum [(1 : ℚ), 0] [1, 0] = 1 := by norm_num [dotSum]
    have hn2 : dotSum [(0 : ℚ), 1] [0, 1] = 1 := by norm_num [dotSum]
    rw [if_neg (by rw [hn1, hn2]; norm_num)]
    rw [hd]
    norm_num

/-- Witness for C7's degenerate-case part: mismatched lengths return 0. -/
theorem C7_witness : cosineSimilarity [1] [1, 2] = 0 :=
  C7_cosine.2.1 [1] [1, 2] (Or.inl (by norm_num))

theorem isNodeId_of_mem {g : KnowledgeGraph} {n : NodeData}
    (hn : n ∈ g.nodes) : isNodeId g n.id = true := by
  unfold isNodeId
  rw [List.any_eq_true]
  exact ⟨n, hn, by simp⟩

theorem isNodeId_elim {g : KnowledgeGraph} {x : String}
    (hx : isNodeId g x = true) : ∃ n ∈ g.nodes, n.id = x := by
  unfold isNodeId at hx
  rw [List.any_eq_true] at hx
  obtain ⟨n, hn, hb⟩ := hx
  exact ⟨n, hn, by simpa using hb⟩

theorem outDegree_pos {g : KnowledgeGraph} {e : EdgeData}
    (he : e ∈ g.edges) : 0 < outDegree g.edges e.source := by
  unfold outDegree
  exact List.length_pos_of_mem (List.mem_filter.mpr ⟨he, by simp⟩)

theorem sum_map_const {α : Type} (l : List α) (c : ℚ) :
    (l.map (fun _ => c)).sum = (l.length : ℚ) * c := by
  induction l with
  | nil => simp
  | cons x xs ih =>
    simp only [List.map_cons, List.sum_cons, ih, List.length_cons]
    push_cast
    ring

theorem sum_map_add {α : Type} (l : List α) (f g' : α → ℚ) :
    (l.map (fun x => f x + g' x)).sum = (l.map f).sum + (l.map g').sum := by
  induction l with
  | nil => simp
  | cons x xs ih =>
    simp only [List.map_cons, List.sum_cons, ih]
    ring

theorem sum_filter_eq_sum_ite {α : Type} (l : List α) (p : α → Bool)
    (f : α → ℚ) :
    ((l.filter p).map f).sum =
      (l.map (fun x => if p x then f x else 0)).sum := by
  induction l with
  | nil => simp
  | cons x xs ih =>
    by_cases hp : p x
    · rw [List.filter_cons_of_pos hp]
      simp only [List.map_cons, List.sum_cons, ih, if_pos hp]
    · rw [List.filter_cons_of_neg hp]
      simp only [List.map_cons, List.sum_cons, ih, if_neg hp]
      ring

theorem sum_sum_comm {α β : Type} (l1 : List α) (l2 : List β)
    (f : α → β → ℚ) :
    (l1.map (fun a => (l2.map (f a)).sum)).sum =
      (l2.map (fun b => (l1.map (fun a => f a b)).sum)).sum := by
  induction l1 with
  | nil =>
    simp only [List.map_nil, List.sum_nil]
    rw [sum_map_const]
    ring
  | cons a l1 ih =>
    simp only [List.map_cons, List.sum_cons, ih]
    rw [← sum_map_add]

theorem sum_ite_zero_of_not_mem (t : String) (c : ℚ) :
    ∀ l : List NodeData, t ∉ l.map NodeData.id →
    (l.map (fun n => if t == n.id then c else 0)).sum = 0 := by
  intro l
  induction l with
  | nil => intro _; simp
  | cons n l ih =>
    intro ht
    simp only [List.map_cons, List.mem_cons, not_or] at ht
    rw [List.map_cons, List.sum_cons, if_neg (by simpa using ht.1), ih ht.2]
    ring

theorem sum_ite_nodup (t : String) (c : ℚ) (hc : 0 ≤ c) :
    ∀ l : List NodeData, (l.map NodeData.id).Nodup →
    (l.map (fun n => if t == n.id then c else 0)).sum ≤ c := by
  intro l
  induction l with
  | nil => intro _; simpa using hc
  | cons n l ih =>
    intro hnd
    rw [List.map_cons, List.nodup_cons] at hnd
    simp only [List.map_cons, List.sum_cons]
    by_cases ht : t == n.id
    · have hteq : t = n.id := by simpa using ht
      rw [if_pos ht, sum_ite_zero_of_not_mem t c l (hteq ▸ hnd.1)]
      simp
    · rw [if_neg ht]
      simpa using ih hnd.2

theorem incomingSum_eq (g : KnowledgeGraph) (r : String → Option ℚ)
    (v : String) (hr : ∀ e ∈ g.edges, ∃ q, r e.source = some q) :
    incomingSum g r v =
      some (((g.edges.filter (fun e => e.target == v)).map
        (edgeMass g r)).sum) := by
  unfold incomingSum
  have main : ∀ l : List EdgeData, (∀ e ∈ l, e ∈ g.edges) → ∀ acc : ℚ,
      l.foldl (fun s e =>
        if 0 < outDegree g.edges e.source then
          jsAdd s (jsDivNat (r e.source) (outDegree g.edges e.source))
        else s) (some acc) = some (acc + (l.map (edgeMass g r)).sum) := by
    intro l
    induction l with
    | nil =>
      intro _ acc
      simp
    | cons e rest ih =>
      intro hl acc
      have hme : e ∈ g.edges := hl e (List.mem_cons_self e rest)
      have hpos := outDegree_pos hme
      obtain ⟨q, hq⟩ := hr e hme
      rw [List.foldl_cons, if_pos hpos, hq]
      show rest.foldl _ (some (acc + q / (outDegree g.edges e.source : ℚ)))
        = _
      rw [ih (fun x hx => hl x (List.mem_cons_of_mem e hx))
        (acc + q / (outDegree g.edges e.source : ℚ))]
      have hqm : edgeMass g r e = q / (outDegree g.edges e.source : ℚ) := by
        unfold edgeMass
        rw [hq]
        rfl
      rw [List.map_cons, List.sum_cons, hqm]
      congr 1
      ring
  have := main (g.edges.filter (fun e => e.target == v))
    (fun e he => (List.mem_filter.mp he).1) 0
  rw [this, zero_add]

theorem edgeMass_nonneg (g : KnowledgeGraph) (r : String → Option ℚ)
    (hsrc : ∀ e ∈ g.edges, isNodeId g e.source = true)
    (hr : ∀ x, isNodeId g x = true → ∃ q, r x = some q ∧ 0 ≤ q) :
    ∀ e ∈ g.edges, 0 ≤ edgeMass g r e := by
  intro e he
  obtain ⟨q, hq, hq0⟩ := hr e.source (hsrc e he)
  unfold edgeMass
  rw [hq]
  exact div_nonneg (by simpa using hq0) (by positivity)

theorem sum_mass_le (g : KnowledgeGraph) (r : String → Option ℚ)
    (hnd : (g.nodes.map NodeData.id).Nodup)
    (hsrc : ∀ e ∈ g.edges, isNodeId g e.source = true)
    (hr : ∀ x, isNodeId g x = true → ∃ q, r x = some q ∧ 0 ≤ q) :
    (g.edges.map (edgeMass g r)).sum ≤
      (g.nodes.map (fun n => (r n.id).getD 0)).sum := by
  have hφ : g.edges.map (edgeMass g r) =
      (g.edges.map EdgeData.source).map
        (fun s => (r s).getD 0 / (outDegree g.edges s : ℚ)) := by
    rw [List.map_map]
    rfl
  rw [hφ, Finset.sum_list_map_count]
  have hcount : ∀ s : String,
      (g.edges.map EdgeData.source).count s = outDegree g.edges s := by
    intro s
    rw [List.count_eq_countP, List.countP_map, outDegree,
      List.countP_eq_length_filter]
    rfl
  calc ∑ s ∈ (g.edges.map EdgeData.source).toFinset,
        (g.edges.map EdgeData.source).count s •
          ((r s).getD 0 / (outDegree g.edges s : ℚ))
      = ∑ s ∈ (g.edges.map EdgeData.source).toFinset, (r s).getD 0 := by
        refine Finset.sum_congr rfl (fun s hs => ?_)
        rw [List.mem_toFinset, List.mem_map] at hs
        obtain ⟨e, he, rfl⟩ := hs
        have hpos := outDegree_pos he
        rw [hcount, nsmul_eq_mul]
        have hne : ((outDegree g.edges e.source : ℚ)) ≠ 0 := by
          have : outDegree g.edges e.source ≠ 0 := by omega
          exact_mod_cast this
        field_simp
    _ ≤ ∑ s ∈ (g.nodes.map NodeData.id).toFinset, (r s).getD 0 := by
        refine Finset.sum_le_sum_of_subset_of_nonneg ?_ ?_
        · intro s hs
          rw [List.mem_toFinset, List.mem_map] at hs
          obtain ⟨e, he, rfl⟩ := hs
          obtain ⟨n, hn, hid⟩ := isNodeId_elim (hsrc e he)
          rw [List.mem_toFinset, List.mem_map]
          exact ⟨n, hn, hid⟩
        · intro i hi _
          rw [List.mem_toFinset, List.mem_map] at hi
          obtain ⟨n, hn, rfl⟩ := hi
          obtain ⟨q, hq, hq0⟩ := hr n.id (isNodeId_of_mem hn)
          rw [hq]
          simpa using hq0
    _ = (g.nodes.map (fun n => (r n.id).getD 0)).sum := by
        rw [List.sum_toFinset _ hnd, List.map_map]
        rfl

theorem sum_incoming_le (g : KnowledgeGraph) (r : String → Option ℚ)
    (hnd : (g.nodes.map NodeData.id).Nodup)
    (hsrc : ∀ e ∈ g.edges, isNodeId g e.source = true)
    (hr : ∀ x, isNodeId g x = true → ∃ q, r x = some q ∧ 0 ≤ q) :
    (g.nodes.map (fun n =>
        ((g.edges.filter (fun e => e.target == n.id)).map
          (edgeMass g r)).sum)).sum ≤
      (g.nodes.map (fun n => (r n.id).getD 0)).sum := by
  have hm := edgeMass_nonneg g r hsrc hr
  have step1 : (g.nodes.map (fun n =>
      ((g.edges.filter (fun e => e.target == n.id)).map
        (edgeMass g r)).sum)).sum =
      (g.nodes.map (fun n => (g.edges.map (fun e =>
        if e.target == n.id then edgeMass g r e else 0)).sum)).sum := by
    congr 1
    exact List.map_congr_left (fun n _ => sum_filter_eq_sum_ite _ _ _)
  rw [step1, sum_sum_comm]
  calc (g.edges.map (fun e => (g.nodes.map (fun n =>
          if e.target == n.id then edgeMass g r e else 0)).sum)).sum
      ≤ (g.edges.map (edgeMass g r)).sum := by
        refine List.sum_le_sum (fun e he => ?_)
        exact sum_ite_nodup e.target (edgeMass g r e) (hm e he) g.nodes hnd
    _ ≤ _ := sum_mass_le g r hnd hsrc hr

theorem prStep_eq (g : KnowledgeGraph) (r : String → Option ℚ) (x : String)
    (hx : isNodeId g x = true)
    (hr : ∀ e ∈ g.edges, ∃ q, r e.source = some q) :
    prStep g r x = some ((1 - damping) / (g.nodes.length : ℚ) +
      damping * ((g.edges.filter (fun e => e.target == x)).map
        (edgeMass g r)).sum) := by
  unfold prStep
  rw [if_pos hx, incomingSum_eq g r x hr]
  rfl

theorem prInv_init (g : KnowledgeGraph) (hN : 0 < g.nodes.length) :
    PrInv g (prIter g 0) := by
  constructor
  · intro x hx
    refine ⟨1 / (g.nodes.length : ℚ), ?_, by positivity⟩
    show (if isNodeId g x then some (1 / (g.nodes.length : ℚ)) else none) = _
    rw [if_pos hx]
  · have : g.nodes.map (fun n => ((prIter g 0) n.id).getD 0) =
        g.nodes.map (fun _ => 1 / (g.nodes.length : ℚ)) := by
      refine List.map_congr_left (fun n hn => ?_)
      show ((if isNodeId g n.id then some (1 / (g.nodes.length : ℚ))
        else none).getD 0) = _
      rw [if_pos (isNodeId_of_mem hn)]
      rfl
    rw [this, sum_map_const]
    rw [mul_one_div, div_self (by positivity)]

theorem prStep_bounds (g : KnowledgeGraph)
    (hN : 0 < g.nodes.length)
    (hnd : (g.nodes.map NodeData.id).Nodup)
    (hsrc : ∀ e ∈ g.edges, isNodeId g e.source = true)
    (r : String → Option ℚ) (hinv : PrInv g r) (x : String)
    (hx : isNodeId g x = true) :
    ∃ q, prStep g r x = some q ∧ 0 ≤ q ∧ q ≤ 1 := by
  obtain ⟨hr1, hr2⟩ := hinv
  have hr' : ∀ e ∈ g.edges, ∃ q, r e.source = some q := by
    intro e he
    obtain ⟨q, hq, -⟩ := hr1 e.source (hsrc e he)
    exact ⟨q, hq⟩
  have hSnonneg : ∀ v, 0 ≤ ((g.edges.filter (fun e => e.target == v)).map
      (edgeMass g r)).sum := by
    intro v
    refine List.sum_nonneg (fun q hq => ?_)
    rw [List.mem_map] at hq
    obtain ⟨e, he, rfl⟩ := hq
    exact edgeMass_nonneg g r hsrc hr1 e (List.mem_filter.mp he).1
  have hSle : ((g.edges.filter (fun e => e.target == x)).map
      (edgeMass g r)).sum ≤ 1 := by
    obtain ⟨n, hn, rfl⟩ := isNodeId_elim hx
    have hmem : ((g.edges.filter (fun e => e.target == n.id)).map
        (edgeMass g r)).sum ∈ g.nodes.map (fun n =>
          ((g.edges.filter (fun e => e.target == n.id)).map
            (edgeMass g r)).sum) := List.mem_map_of_mem _ hn
    have hnn : ∀ y ∈ g.nodes.map (fun n =>
        ((g.edges.filter (fun e => e.target == n.id)).map
          (edgeMass g r)).sum), 0 ≤ y := by
      intro y hy
      rw [List.mem_map] at hy
      obtain ⟨m, -, rfl⟩ := hy
      exact hSnonneg m.id
    have hle := List.single_le_sum hnn _ hmem
    exact le_trans hle
      (le_trans (sum_incoming_le g r hnd hsrc hr1) hr2)
  refine ⟨(1 - damping) / (g.nodes.length : ℚ) +
    damping * ((g.edges.filter (fun e => e.target == x)).map
      (edgeMass g r)).sum, prStep_eq g r x hx hr', ?_, ?_⟩
  · have h1 : (0 : ℚ) ≤ (1 - damping) / (g.nodes.length : ℚ) := by
      rw [damping]
      positivity
    have h2 : (0 : ℚ) ≤ damping * _ :=
      mul_nonneg (by rw [damping]; norm_num) (hSnonneg x)
    exact add_nonneg h1 h2
  · have hc : (1 - damping) / (g.nodes.length : ℚ) ≤ 1 - damping := by
      refine div_le_self (by rw [damping]; norm_num) ?_
      exact_mod_cast hN
    have hd : damping * ((g.edges.filter (fun e => e.target == x)).map
        (edgeMass g r)).sum ≤ damping * 1 :=
      mul_le_mul_of_nonneg_left hSle (by rw [damping]; norm_num)
    calc (1 - damping) / (g.nodes.length : ℚ) + damping * _
        ≤ (1 - damping) + damping * 1 := add_le_add hc hd
      _ = 1 := by ring

theorem prInv_step (g : KnowledgeGraph)
    (hN : 0 < g.nodes.length)
    (hnd : (g.nodes.map NodeData.id).Nodup)
    (hsrc : ∀ e ∈ g.edges, isNodeId g e.source = true)
    (r : String → Option ℚ) (hinv : PrInv g r) :
    PrInv g (prStep g r) := by
  obtain ⟨hr1, hr2⟩ := hinv
  have hr' : ∀ e ∈ g.edges, ∃ q, r e.source = some q := by
    intro e he
    obtain ⟨q, hq, -⟩ := hr1 e.source (hsrc e he)
    exact ⟨q, hq⟩
  constructor
  · intro x hx
    obtain ⟨q, hq, h0, -⟩ := prStep_bounds g hN hnd hsrc r ⟨hr1, hr2⟩ x hx
    exact ⟨q, hq, h0⟩
  · have heach : g.nodes.map (fun n => ((prStep g r) n.id).getD 0) =
        g.nodes.map (fun n => (1 - damping) / (g.nodes.length : ℚ) +
          damping * ((g.edges.filter (fun e => e.target == n.id)).map
            (edgeMass g r)).sum) := by
      refine List.map_congr_left (fun n hn => ?_)
      rw [prStep_eq g r n.id (isNodeId_of_mem hn) hr']
      rfl
    rw [heach]
    have hsplit : (g.nodes.map (fun n =>
        (1 - damping) / (g.nodes.length : ℚ) +
          damping * ((g.edges.filter (fun e => e.target == n.id)).map
            (edgeMass g r)).sum)).sum =
        (g.nodes.length : ℚ) * ((1 - damping) / (g.nodes.length : ℚ)) +
          damping * (g.nodes.map (fun n =>
            ((g.edges.filter (fun e => e.target == n.id)).map
              (edgeMass g r)).sum)).sum := by
      rw [sum_map_add, sum_map_const, ← List.sum_map_mul_left]
    rw [hsplit]
    have hS := le_trans (sum_incoming_le g r hnd hsrc hr1) hr2
    have hNne : ((g.nodes.length : ℚ)) ≠ 0 := by
      have : g.nodes.length ≠ 0 := by omega
      exact_mod_cast this
    have hfirst : (g.nodes.length : ℚ) *
        ((1 - damping) / (g.nodes.length : ℚ)) = 1 - damping := by
      field_simp
    rw [hfirst]
    have hsecond : damping * (g.nodes.map (fun n =>
        ((g.edges.filter (fun e => e.target == n.id)).map
          (edgeMass g r)).sum)).sum ≤ damping * 1 :=
      mul_le_mul_of_nonneg_left hS (by rw [damping]; norm_num)
    calc (1 - damping) + damping * _ ≤ (1 - damping) + damping * 1 := by
          exact add_le_add_left hsecond _
      _ = 1 := by ring

theorem prInv_iter (g : KnowledgeGraph)
    (hN : 0 < g.nodes.length)
    (hnd : (g.nodes.map NodeData.id).Nodup)
    (hsrc : ∀ e ∈ g.edges, isNodeId g e.source = true) :
    ∀ k : Nat, PrInv g (prIter g k) := by
  intro k
  induction k with
  | zero => exact prInv_init g hN
  | succ k ih => exact prInv_step g hN hnd hsrc (prIter g k) ih

/-- PageRank range: under unique node ids and no dangling edge sources,
every node's PageRank after 20 rounds is a defined rational in [0, 1]. -/
theorem calculatePageRank_bounds (g : KnowledgeGraph)
    (hN : 0 < g.nodes.length)
    (hnd : (g.nodes.map NodeData.id).Nodup)
    (hsrc : ∀ e ∈ g.edges, isNodeId g e.source = true)
    (x : String) (hx : isNodeId g x = true) :
    ∃ q, calculatePageRank g x = some q ∧ 0 ≤ q ∧ q ≤ 1 := by
  unfold calculatePageRank
  rw [if_neg (by omega)]
  show ∃ q, prStep g (prIter g 19) x = some q ∧ 0 ≤ q ∧ q ≤ 1
  exact prStep_bounds g hN hnd hsrc (prIter g 19)
    (prInv_iter g hN hnd hsrc 19) x hx

theorem le_foldl_max (f : NodeData → Nat) :
    ∀ (l : List NodeData) (b : Nat),
      b ≤ l.foldl (fun m n => Nat.max m (f n)) b := by
  intro l
  induction l with
  | nil => intro b; exact le_refl b
  | cons x xs ih =>
    intro b
    exact le_trans (Nat.le_max_left b (f x)) (ih (Nat.max b (f x)))

theorem mem_le_foldl_max (f : NodeData → Nat) :
    ∀ (l : List NodeData) (b : Nat) (n : NodeData), n ∈ l →
      f n ≤ l.foldl (fun m n => Nat.max m (f n)) b := by
  intro l
  induction l with
  | nil => intro b n hn; cases hn
  | cons x xs ih =>
    intro b n hn
    rcases List.mem_cons.mp hn with rfl | hn'
    · exact le_trans (Nat.le_max_right b (f n)) (le_foldl_max f xs _)
    · exact ih _ n hn'

/-- Degree-centrality range: every node's normalized degree is a defined
rational in [0, 1]. -/
theorem calculateDegreeCentrality_bounds (g : KnowledgeGraph) (x : String)
    (hx : isNodeId g x = true) :
    ∃ q, calculateDegreeCentrality g x = some q ∧ 0 ≤ q ∧ q ≤ 1 := by
  unfold calculateDegreeCentrality
  rw [if_pos hx]
  have hmax1 : 1 ≤ maxDegree g := le_foldl_max _ g.nodes 1
  have hmaxpos : (0 : ℚ) < (maxDegree g : ℚ) := by
    exact_mod_cast hmax1
  refine ⟨_, rfl, by positivity, ?_⟩
  rw [div_le_one hmaxpos]
  obtain ⟨n, hn, rfl⟩ := isNodeId_elim hx
  have := mem_le_foldl_max (fun n => degreeCount g.edges n.id) g.nodes 1 n hn
  exact_mod_cast this

/-- C3 counterexample: enriching the one-node graph leaves `betweenness`
unassigned (`none`), so it is not in [0, 1]; the same holds for
`closeness` and `clustering`. -/
theorem C3_counterexample :
    (Part005.enrichGraphWithMetrics 0 oneNodeGraph).nodes.map
        NodeData.betweenness = [none] ∧
    (Part005.enrichGraphWithMetrics 0 oneNodeGraph).nodes.map
        NodeData.closeness = [none] ∧
    (Part005.enrichGraphWithMetrics 0 oneNodeGraph).nodes.map
        NodeData.clustering = [none] := by
  decide

/-- C3 (amended): enrichment gives every node a degree centrality in
[0, 1] and, when node ids are unique and every edge endpoint is a node
id, a PageRank in [0, 1]; `betweenness`, `closeness` and `clustering` are
not assigned and keep their input values. -/
theorem C3_enriched_ranges (noise : ℚ) (g : KnowledgeGraph) (i : Nat)
    (n : NodeData) (h : g.nodes[i]? = some n)
    (hnd : (g.nodes.map NodeData.id).Nodup)
    (hend : ∀ e ∈ g.edges,
      isNodeId g e.source = true ∧ isNodeId g e.target = true) :
    ∃ n', (Part005.enrichGraphWithMetrics noise g).nodes[i]? = some n' ∧
      (∃ q, n'.degreeCentrality = some q ∧ 0 ≤ q ∧ q ≤ 1) ∧
      (∃ q, n'.pagerank = some q ∧ 0 ≤ q ∧ q ≤ 1) ∧
      n'.betweenness = n.betweenness ∧ n'.closeness = n.closeness ∧
      n'.clustering = n.clustering := by
  have hmem : n ∈ g.nodes := List.getElem?_mem h
  have hx : isNodeId g n.id = true := isNodeId_of_mem hmem
  have hN : 0 < g.nodes.length := List.length_pos_of_mem hmem
  refine ⟨{ n with
      degreeCentrality := calculateDegreeCentrality g n.id
      pagerank := calculatePageRank g n.id
      community := detectCommunities g n.id
      kCore := some (Int.floor
        (((calculateDegreeCentrality g n.id).getD 0) * 10)) },
    ?_, ?_, ?_, rfl, rfl, rfl⟩
  · show (g.nodes.map _)[i]? = _
    rw [List.getElem?_map, h]
    rfl
  · exact calculateDegreeCentrality_bounds g n.id hx
  · exact calculatePageRank_bounds g hN hnd
      (fun e he => (hend e he).1) n.id hx

/-- Witness for C3's amended statement at a concrete well-formed graph. -/
theorem C3_witness :
    ∃ n', (Part005.enrichGraphWithMetrics 0 pairGraph).nodes[0]? = some n' ∧
      (∃ q, n'.degreeCentrality = some q ∧ 0 ≤ q ∧ q ≤ 1) ∧
      (∃ q, n'.pagerank = some q ∧ 0 ≤ q ∧ q ≤ 1) ∧
      n'.betweenness = none ∧ n'.closeness = none ∧
      n'.clustering = none :=
  C3_enriched_ranges 0 pairGraph 0 (mkNode "a" "A" "p") rfl (by decide)
    (by decide)

theorem adjUpd2_lookup (f : String → String → Option Int) (e : EdgeData)
    (val : Int) (u v : String) :
    adjUpd (adjUpd f e.source e.target val) e.target e.source val u v =
      if connectsPair e u v then some val else f u v := by
  unfold adjUpd
  have hcp : (connectsPair e u v = true) ↔
      ((u = e.source ∧ v = e.target) ∨ (u = e.target ∧ v = e.source)) := by
    unfold connectsPair
    simp only [Bool.or_eq_true, Bool.and_eq_true, beq_iff_eq]
    constructor
    · rintro (⟨h1, h2⟩ | ⟨h1, h2⟩)
      · exact Or.inl ⟨h1.symm, h2.symm⟩
      · exact Or.inr ⟨h2.symm, h1.symm⟩
    · rintro (⟨h1, h2⟩ | ⟨h1, h2⟩)
      · exact Or.inl ⟨h1.symm, h2.symm⟩
      · exact Or.inr ⟨h2.symm, h1.symm⟩
  by_cases h1 : (u == e.target && v == e.source) = true
  · rw [if_pos h1, if_pos]
    rw [hcp]
    simp only [Bool.and_eq_true, beq_iff_eq] at h1
    exact Or.inr h1
  · rw [if_neg h1]
    by_cases h2 : (u == e.source && v == e.target) = true
    · rw [if_pos h2, if_pos]
      rw [hcp]
      simp only [Bool.and_eq_true, beq_iff_eq] at h2
      exact Or.inl h2
    · rw [if_neg h2, if_neg]
      rw [hcp]
      simp only [Bool.and_eq_true, beq_iff_eq] at h1 h2
      rintro (⟨ha, hb⟩ | ⟨ha, hb⟩)
      · exact h2 ⟨ha, hb⟩
      · exact h1 ⟨ha, hb⟩

theorem signAdj_foldl (u v : String) : ∀ (l : List EdgeData)
    (f : String → String → Option Int),
    (l.foldl (fun f e =>
      let val : Int := if e.sign == some Sign.negative then -1 else 1
      adjUpd (adjUpd f e.source e.target val) e.target e.source val) f) u v
    = ((l.filter (fun e => connectsPair e u v)).getLast?).elim (f u v)
        (fun e => some (signVal e)) := by
  intro l
  induction l with
  | nil =>
    intro f
    simp
  | cons e l ih =>
    intro f
    rw [List.foldl_cons, ih]
    by_cases hc : connectsPair e u v
    · rw [List.filter_cons, if_pos hc]
      cases hfl : l.filter (fun e => connectsPair e u v) with
      | nil =>
        simp only [List.getLast?_nil, List.getLast?_singleton,
          Option.elim_none, Option.elim_some]
        rw [adjUpd2_lookup, if_pos hc]
        rfl
      | cons x xs =>
        rw [List.getLast?_cons_cons]
        obtain ⟨y, hy⟩ := Option.isSome_iff_exists.mp
          (List.getLast?_isSome.mpr (List.cons_ne_nil x xs))
        rw [hy]
        simp only [Option.elim_some]
    · rw [List.filter_cons, if_neg hc]
      cases hfl : l.filter (fun e => connectsPair e u v) with
      | nil =>
        simp only [List.getLast?_nil, Option.elim_none]
        rw [adjUpd2_lookup, if_neg hc]
      | cons x xs =>
        obtain ⟨y, hy⟩ := Option.isSome_iff_exists.mp
          (List.getLast?_isSome.mpr (List.cons_ne_nil x xs))
        rw [hy]
        simp only [Option.elim_some]

theorem signAdj_eq_specPairSign (edges : List EdgeData) (u v : String) :
    signAdj edges u v = specPairSign edges u v := by
  unfold signAdj specPairSign
  rw [signAdj_foldl]
  cases h : (edges.filter (fun e => connectsPair e u v)).getLast? with
  | none => rfl
  | some e => rfl

theorem specPairSign_isSome_truthy (edges : List EdgeData) (u v : String) :
    jsTruthyInt (specPairSign edges u v) = (specPairSign edges u v).isSome := by
  cases h : specPairSign edges u v with
  | none => rfl
  | some z =>
    unfold specPairSign at h
    rw [Option.map_eq_some'] at h
    obtain ⟨e, -, rfl⟩ := h
    unfold jsTruthyInt signVal
    by_cases hs : e.sign == some Sign.negative
    · rw [if_pos hs]
      rfl
    · rw [if_neg hs]
      rfl

theorem triangleAt_eq_spec (edges : List EdgeData) (nodeIds : List String)
    (t : Nat × Nat × Nat) :
    triangleAt edges nodeIds t = specTriangleAt edges nodeIds t := by
  unfold triangleAt specTriangleAt
  simp only [signAdj_eq_specPairSign, specPairSign_isSome_truthy]

theorem balancedAt_eq_spec (edges : List EdgeData) (nodeIds : List String)
    (t : Nat × Nat × Nat) :
    balancedAt edges nodeIds t = specBalancedAt edges nodeIds t := by
  unfold balancedAt specBalancedAt
  simp only [triangleAt_eq_spec, signAdj_eq_specPairSign]

/-- C4 (amended): for graphs with at most 200 nodes the source's triadic
balance agrees exactly with the specification-side balance over all
unordered triples (balanced iff positive sign product, ratio defaulting
to 1); on the concrete 3-node triangles the all-positive one scores 1 and
the one-negative-edge one scores 0. -/
theorem C4_triadic_balance :
    (∀ g : KnowledgeGraph, g.nodes.length ≤ 200 →
      GraphService.calculateTriadicBalance g = specTriadicBalance g) ∧
    GraphService.calculateTriadicBalance triPosGraph = 1 ∧
    GraphService.calculateTriadicBalance triNegGraph = 0 := by
  refine ⟨?_, by decide, by decide⟩
  intro g hcap
  unfold GraphService.calculateTriadicBalance specTriadicBalance
  have h1 : triangleAt g.edges (g.nodes.map NodeData.id) =
      specTriangleAt g.edges (g.nodes.map NodeData.id) :=
    funext (fun t => triangleAt_eq_spec _ _ t)
  have h2 : balancedAt g.edges (g.nodes.map NodeData.id) =
      specBalancedAt g.edges (g.nodes.map NodeData.id) :=
    funext (fun t => balancedAt_eq_spec _ _ t)
  have hmin : Nat.min (g.nodes.map NodeData.id).length 200 =
      (g.nodes.map NodeData.id).length := by
    rw [List.length_map]
    exact Nat.min_eq_left hcap
  dsimp only
  rw [hmin, h1, h2]

/-- Witness for C4's amended universal part at a concrete sub-cap graph. -/
theorem C4_witness :
    GraphService.calculateTriadicBalance triPosGraph =
      specTriadicBalance triPosGraph :=
  C4_triadic_balance.1 triPosGraph (by decide)

theorem fillerId_ne (i : Nat) (s : String) (hlen1 : s.data.length = 1)
    (hne : s.data ≠ [Char.ofNat 102]) : fillerId i ≠ s := by
  intro h
  have hd := congrArg String.data h
  have hlen := congrArg List.length hd
  rw [show (fillerId i).data = List.replicate (i + 1) (Char.ofNat 102)
    from rfl, List.length_replicate, hlen1] at hlen
  have hi : i = 0 := by omega
  subst hi
  rw [show (fillerId 0).data = [Char.ofNat 102] from rfl] at hd
  exact hne hd.symm

theorem bigIds_eq : bigCapGraph.nodes.map NodeData.id =
    (List.range 198).map fillerId ++ ["a", "b", "c"] := by
  show ((List.range 198).map (fun i => mkNode (fillerId i) "F" "p") ++
    [mkNode "a" "A" "p", mkNode "b" "B" "p", mkNode "c" "C" "p"]).map
      NodeData.id = _
  rw [List.map_append, List.map_map]
  rfl

theorem bigIds_getD_lt (i : Nat) (hi : i < 198) :
    (bigCapGraph.nodes.map NodeData.id).getD i strDefault = fillerId i := by
  rw [bigIds_eq, List.getD_eq_getElem?_getD, List.getElem?_append,
    if_pos (by simpa using hi), List.getElem?_map, List.getElem?_range hi]
  rfl

theorem bigIds_getD_198 :
    (bigCapGraph.nodes.map NodeData.id).getD 198 strDefault = "a" := by
  rw [bigIds_eq, List.getD_eq_getElem?_getD, List.getElem?_append,
    if_neg (by simp),
    show (List.map fillerId (List.range 198)).length = 198 by simp]
  rfl

theorem bigIds_getD_199 :
    (bigCapGraph.nodes.map NodeData.id).getD 199 strDefault = "b" := by
  rw [bigIds_eq, List.getD_eq_getElem?_getD, List.getElem?_append,
    if_neg (by simp),
    show (List.map fillerId (List.range 198)).length = 198 by simp]
  rfl

theorem bigIds_getD_200 :
    (bigCapGraph.nodes.map NodeData.id).getD 200 strDefault = "c" := by
  rw [bigIds_eq, List.getD_eq_getElem?_getD, List.getElem?_append,
    if_neg (by simp),
    show (List.map fillerId (List.range 198)).length = 198 by simp]
  rfl

theorem specPairSign_filler (i : Nat) (v : String) :
    specPairSign bigCapGraph.edges (fillerId i) v = none := by
  have ha := fillerId_ne i "a" (by decide) (by decide)
  have hb := fillerId_ne i "b" (by decide) (by decide)
  have hc := fillerId_ne i "c" (by decide) (by decide)
  unfold specPairSign
  have hfil : bigCapGraph.edges.filter
      (fun e => connectsPair e (fillerId i) v) = [] := by
    rw [List.filter_eq_nil_iff]
    intro e he
    have he3 : e = ⟨"e1", "a", "b", "ally", some Sign.positive, none⟩ ∨
        e = ⟨"e2", "b", "c", "ally", some Sign.positive, none⟩ ∨
        e = ⟨"e3", "c", "a", "rival", some Sign.negative, none⟩ := by
      simpa [bigCapGraph] using he
    rcases he3 with rfl | rfl | rfl <;>
      · simp only [connectsPair, Bool.or_eq_true, Bool.and_eq_true,
          beq_iff_eq, not_or, not_and]
        constructor
        · rintro h
          exact absurd h.symm (by first | exact ha | exact hb | exact hc)
        · rintro - h
          exact absurd h.symm (by first | exact ha | exact hb | exact hc)
  rw [hfil]
  rfl

/-- C4 counterexample: `bigCapGraph` has 201 nodes whose only triangle
sits on the node indices 198, 199, 200 and has exactly one negative edge.
The capped triple loop (limit 200) never sees it, so the source computes
`globalBalance = 1`, while the claimed ratio over ALL unordered triples,
`specTriadicBalance`, is 0. -/
theorem C4_counterexample :
    GraphService.calculateTriadicBalance bigCapGraph = 1 ∧
    specTriadicBalance bigCapGraph = 0 ∧
    bigCapGraph.nodes.length = 201 := by
  have hlen : (bigCapGraph.nodes.map NodeData.id).length = 201 := by
    rw [bigIds_eq]
    simp
  have hcapfalse : ∀ t ∈ tripleList 200,
      triangleAt bigCapGraph.edges (bigCapGraph.nodes.map NodeData.id) t
        = false := by
    rintro ⟨i, j, k⟩ ht
    rw [mem_tripleList] at ht
    have hi : i < 198 := by omega
    unfold triangleAt
    dsimp only
    rw [bigIds_getD_lt i hi, signAdj_eq_specPairSign, specPairSign_filler]
    rfl
  refine ⟨?_, ?_, ?_⟩
  · unfold GraphService.calculateTriadicBalance
    dsimp only
    rw [hlen, show Nat.min 201 200 = 200 from rfl]
    rw [List.countP_eq_zero.mpr (fun t ht => by rw [hcapfalse t ht]; simp)]
    norm_num
  · have htri : specTriangleAt bigCapGraph.edges
        (bigCapGraph.nodes.map NodeData.id) (198, 199, 200) = true := by
      unfold specTriangleAt
      dsimp only
      rw [bigIds_getD_198, bigIds_getD_199, bigIds_getD_200]
      decide
    have hbal0 : (tripleList 201).countP (specBalancedAt bigCapGraph.edges
        (bigCapGraph.nodes.map NodeData.id)) = 0 := by
      rw [List.countP_eq_zero]
      rintro ⟨i, j, k⟩ ht hp
      rw [mem_tripleList] at ht
      by_cases hi : i < 198
      · unfold specBalancedAt specTriangleAt at hp
        dsimp only at hp
        rw [bigIds_getD_lt i hi, specPairSign_filler] at hp
        simp at hp
      · have hijk : i = 198 ∧ j = 199 ∧ k = 200 := by omega
        obtain ⟨rfl, rfl, rfl⟩ := hijk
        unfold specBalancedAt specTriangleAt at hp
        dsimp only at hp
        rw [bigIds_getD_198, bigIds_getD_199, bigIds_getD_200] at hp
        exact absurd hp (by decide)
    unfold specTriadicBalance
    dsimp only
    rw [hlen, hbal0]
    rw [if_pos]
    · norm_num
    · rw [List.countP_pos_iff]
      exact ⟨(198, 199, 200), mem_tripleList.mpr (by omega), htri⟩
  · rw [← hlen, List.length_map]
